import Mathlib

/-!
Verification of the Civ7ModManager mod-management core (src/src/main.py).

The registry `self.mods` is a Python dict `folder_name -> ModInfo`; we embed
dicts as association lists over `String` keys (insertion-ordered, unique keys,
assignment overwrites in place).  Python set iteration order is unspecified, so
operations that iterate a set intersection are parameterised by an iteration
-order oracle `ord`, constrained by `validOrd` to enumerate exactly the
intersection, without duplicates.
-/

namespace Civ7ModManager

/-- One installed mod: the metadata record parsed from its manifest
(`display_name`, `id`, `version`, `authors`, `affects_saves`,
`affected_files`) together with the mutable `enabled` flag and the derived
`conflicts` dict `other display name -> representative conflicting file`,
mirroring the fields of `ModInfo` as used by `main.py`.  `affected_files`
models a Python set of relative path strings. -/
structure Mod where
  display_name : String
  mod_id : String
  version : String
  authors : String
  affects_saves : Bool
  affected_files : List String
  enabled : Bool
  conflicts : List (String × String)
deriving DecidableEq

/-- The registry `self.mods`: dict `folder_name -> ModInfo`. -/
abbrev Registry := List (String × Mod)

/-- A mod's `conflicts` dict: `display_name -> file`. -/
abbrev ConflictMap := List (String × String)

/-- A saved profile: dict `folder_name -> enabled`. -/
abbrev ProfileData := List (String × Bool)

/-- The profile directory: profile name -> stored profile data. -/
abbrev ProfileStore := List (String × ProfileData)

/-- Python dict assignment `d[k] = v`: overwrite in place if the key exists,
otherwise append at the end. -/
def setAssoc {α : Type} : List (String × α) → String → α → List (String × α)
  | [], k, v => [(k, v)]
  | p :: rest, k, v => if p.1 = k then (k, v) :: rest else p :: setAssoc rest k v

/-- Python dict lookup `d.get(k)`: the value of the first (unique) matching
key, if any. -/
def getAssoc {α : Type} : List (String × α) → String → Option α
  | [], _ => none
  | p :: rest, k => if p.1 = k then some p.2 else getAssoc rest k

/-- Python `k in d` membership test on a dict. -/
def hasKey (d : ConflictMap) (k : String) : Bool :=
  (getAssoc d k).isSome

/-- The registry's key list (`self.mods.keys()`). -/
def regKeys (reg : Registry) : List String :=
  reg.map (fun p => p.1)

/-- `enabled_mods = {name: mod for name, mod in self.mods.items() if mod.enabled}`
(main.py line 213). -/
def enabledOf (reg : Registry) : Registry :=
  reg.filter (fun p => p.2.enabled)

/-- Body of the inner loop of `_update_conflicts` (main.py lines 219-223) for
one entry of `enabled_mods`: when `other_name != mod_name`, iterate the common
files (in the order the oracle gives for this pair) and write each into the
conflicts dict under the other mod's display name, so the last iterated file
wins. -/
def conflictStep (ord : String → String → List String) (name : String)
    (d : ConflictMap) (p : String × Mod) : ConflictMap :=
  if p.1 ≠ name then
    (ord name p.1).foldl (fun d2 f => setAssoc d2 p.2.display_name f) d
  else d

/-- The conflicts dict rebuilt for one enabled mod by `_update_conflicts`:
fold of `conflictStep` over `enabled_mods` starting from the cleared dict. -/
def modConflicts (ord : String → String → List String) (name : String)
    (enabledMods : Registry) : ConflictMap :=
  enabledMods.foldl (conflictStep ord name) []

/-- The per-entry effect of `_update_conflicts` on the mod registered under
`n`: `mod.conflicts.clear()`, then the dict is rebuilt against `enabled_mods`
when the mod is enabled (main.py lines 216-223). -/
def recomputeEntry (ord : String → String → List String) (reg : Registry)
    (n : String) (m : Mod) : Mod :=
  { m with conflicts :=
      if m.enabled then modConflicts ord n (enabledOf reg) else [] }

/-- `_update_conflicts` (main.py lines 210-223): every mod's conflicts dict is
cleared; an enabled mod's dict is rebuilt against all other enabled mods, a
disabled mod's dict stays empty. -/
def updateConflicts (ord : String → String → List String) (reg : Registry) :
    Registry :=
  reg.map (fun p => (p.1, recomputeEntry ord reg p.1 p.2))

/-- `ord` is a possible family of iteration orders of the Python set
intersections `mod.metadata[...] & other_mod.metadata[...]`: for every pair of
registered mods it enumerates exactly the common affected files, each once. -/
def validOrd (ord : String → String → List String) (reg : Registry) : Prop :=
  ∀ a b ma mb, getAssoc reg a = some ma → getAssoc reg b = some mb →
    (ord a b).Nodup ∧
      ∀ f, f ∈ ord a b ↔ (f ∈ ma.affected_files ∧ f ∈ mb.affected_files)

/-- One concrete iteration-order oracle: enumerate the intersection in the
order of the first mod's file list, deduplicated. -/
def canonicalOrd (reg : Registry) : String → String → List String :=
  fun a b =>
    match getAssoc reg a, getAssoc reg b with
    | some ma, some mb =>
        (ma.affected_files.filter (fun f => mb.affected_files.contains f)).dedup
    | _, _ => []

/-- The display names of the listed mods are pairwise distinct. -/
def distinctDisplays : Registry → Bool
  | [] => true
  | p :: rest =>
      rest.all (fun q => p.2.display_name != q.2.display_name) &&
        distinctDisplays rest

/-- The conflicts dict of the mod registered under `n`, empty if absent. -/
def conflictsOf (reg : Registry) (n : String) : ConflictMap :=
  ((getAssoc reg n).map Mod.conflicts).getD []

/-- `mod.enabled = is_enabled` on the mod registered under the given folder
name (main.py line 206); other entries are untouched. -/
def setEnabledReg (reg : Registry) (folder : String) (b : Bool) : Registry :=
  reg.map (fun p => if p.1 = folder then (p.1, { p.2 with enabled := b }) else p)

/-- Whether a checkbox toggle was applied or silently ignored; the handler
raises nothing, so there is no error alternative. -/
inductive ToggleOutcome where
  | applied
  | ignored
deriving DecidableEq

/-- `_on_mod_toggle` (main.py lines 192-208) for a tree item carrying the
given folder name: `mod = self.mods.get(folder_name)`; when the lookup fails
the handler returns early without touching any state; otherwise it sets the
mod's enabled flag and recomputes every conflicts dict. -/
def onModToggle (ord : String → String → List String) (reg : Registry)
    (folder : String) (checked : Bool) : Registry × ToggleOutcome :=
  match getAssoc reg folder with
  | none => (reg, ToggleOutcome.ignored)
  | some _ =>
      (updateConflicts ord (setEnabledReg reg folder checked),
        ToggleOutcome.applied)

/-- Stable insertion by lowercased name, one step. -/
def insertSorted (x : String) : List String → List String
  | [] => [x]
  | y :: ys =>
      if x.toLower ≤ y.toLower then x :: y :: ys else y :: insertSorted x ys

/-- `mod_dirs.sort(key=lambda x: x.name.lower())` (main.py line 348): a stable
sort of the storage subdirectory names by lowercased name.  The claims do not
depend on the particular order, only on the result holding the same names. -/
def sortDirs (dirs : List String) : List String :=
  dirs.foldr insertSorted []

/-- The scan loop of `refresh_mod_list` (main.py lines 350-362): for each
directory, `ModInfo(mod_item)` either yields a folder name and record, which
is assigned into `self.mods`, or raises, in which case the error is logged and
the loop continues with the next directory.  `parse` embeds the `ModInfo`
constructor; `none` is a raised parse exception. -/
def scanLoop (parse : String → Option (String × Mod)) (acc : Registry) :
    List String → Registry
  | [] => acc
  | d :: rest =>
      match parse d with
      | some nm => scanLoop parse (setAssoc acc nm.1 nm.2) rest
      | none => scanLoop parse acc rest

/-- `refresh_mod_list` (main.py lines 319-372): `self.mods.clear()` discards
the previous registry, the storage subdirectories are sorted by lowercased
name and scanned; the result depends only on the storage contents (`dirs` and
`parse`), never on the previous registry. -/
def refreshModList (parse : String → Option (String × Mod))
    (dirs : List String) (_oldReg : Registry) : Registry :=
  scanLoop parse [] (sortDirs dirs)

/-- Result of a deployment run: the final contents of the game mods directory,
or the contents at the moment a copy raised together with the failing mod. -/
inductive DeployResult where
  | success : List String → DeployResult
  | failure : List String → String → DeployResult
deriving DecidableEq

/-- The copy loop of `deploy_mods` (main.py lines 275-278): copy each enabled
mod in order into the target directory; a `copytree` failure raises out of the
loop, aborting the remaining copies with no rollback.  `copyOk` tells whether
copying a given mod succeeds. -/
def copyLoop (copyOk : String → Bool) : Registry → List String → DeployResult
  | [], t => DeployResult.success t
  | p :: rest, t =>
      if copyOk p.1 then copyLoop copyOk rest (t ++ [p.1])
      else DeployResult.failure t p.1

/-- `deploy_mods` (main.py lines 255-289) after confirmation: phase 1 removes
every entry of the game mods directory (lines 265-270), phase 2 copies each
enabled mod under its folder name.  The pre-deploy `target` contents are
discarded by the clear phase, so copying starts from the empty directory. -/
def deployMods (copyOk : String → Bool) (reg : Registry)
    (_target : List String) : DeployResult :=
  copyLoop copyOk (enabledOf reg) []

/-- Outcome of `save_profile`: the profile was written, or the save was
skipped with a warning because no mods are loaded. -/
inductive SaveOutcome where
  | saved
  | emptyWarning
deriving DecidableEq

/-- The profile data captured by `save_profile` (main.py lines 548-551):
`{folder_name: mod.enabled for folder_name, mod in self.mods.items()}`. -/
def profileOf (reg : Registry) : ProfileData :=
  reg.map (fun p => (p.1, p.2.enabled))

/-- `save_profile` (main.py lines 540-555): with no mods loaded it warns and
returns without writing; otherwise it serializes the captured enabled map
under the chosen name, overwriting any existing profile of that name. -/
def saveProfile (store : ProfileStore) (name : String) (reg : Registry) :
    ProfileStore × SaveOutcome :=
  if reg.isEmpty then (store, SaveOutcome.emptyWarning)
  else (setAssoc store name (profileOf reg), SaveOutcome.saved)

/-- Reading a named profile back from the profile directory
(main.py lines 586-594). -/
def loadProfileData (store : ProfileStore) (name : String) :
    Option ProfileData :=
  getAssoc store name

/-- Per-mod flag update of `load_profile` (main.py lines 606-611): when the
folder name is a key of the profile data the enabled flag takes the stored
value, otherwise the record is left untouched. -/
def applyFlag (data : ProfileData) (n : String) (m : Mod) : Mod :=
  match getAssoc data n with
  | some b => { m with enabled := b }
  | none => m

/-- Applying loaded profile data onto the registry (main.py lines 601-614):
each registry entry's enabled flag is updated from the profile where present,
then `_update_conflicts` recomputes every conflicts dict.  Profile keys naming
no registry entry are never consulted. -/
def applyProfile (ord : String → String → List String) (reg : Registry)
    (data : ProfileData) : Registry :=
  updateConflicts ord (reg.map (fun p => (p.1, applyFlag data p.1 p.2)))

/-! Concrete fixtures used by counterexamples and witnesses. -/

/-- A mod record with the given display name, affected files and enabled
flag; the remaining manifest fields are empty defaults. -/
def mkMod (disp : String) (files : List String) (en : Bool) : Mod :=
  { display_name := disp, mod_id := "", version := "", authors := "",
    affects_saves := false, affected_files := files, enabled := en,
    conflicts := [] }

/-- Registry with duplicated display names among enabled mods: displays are
E, D, D, E and the only overlaps are mod_a/mod_c (file f) and
mod_b/mod_d (file g); mod_a and mod_b themselves share no file. -/
def c1CexReg : Registry :=
  [("mod_a", mkMod "E" ["f"] true),
   ("mod_b", mkMod "D" ["g"] true),
   ("mod_c", mkMod "D" ["f"] true),
   ("mod_d", mkMod "E" ["g"] true)]

/-- Two enabled mods with distinct display names sharing one file. -/
def c1WReg : Registry :=
  [("mod_a", mkMod "Mod A" ["a.xml", "shared.xml"] true),
   ("mod_b", mkMod "Mod B" ["shared.xml"] true)]

/-- Two enabled mods whose affected-file sets share two files. -/
def c2Reg : Registry :=
  [("mod_a", mkMod "Mod A" ["a.xml", "b.xml"] true),
   ("mod_b", mkMod "Mod B" ["a.xml", "b.xml"] true)]

/-- An iteration order of the two-element intersection that ends at the
lexicographically larger file. -/
def c2Ord : String → String → List String :=
  fun _ _ => ["a.xml", "b.xml"]

/-- Spec scenario: mod_a affects a.xml and shared.xml, mod_b affects
shared.xml, both enabled. -/
def c3Reg : Registry :=
  [("mod_a", mkMod "Mod A" ["a.xml", "shared.xml"] true),
   ("mod_b", mkMod "Mod B" ["shared.xml"] true)]

/-- The scenario registry after disabling mod_a. -/
def c3RegDis : Registry :=
  setEnabledReg c3Reg "mod_a" false

/-- The scenario registry after disabling mod_b instead. -/
def c3RegDisB : Registry :=
  setEnabledReg c3Reg "mod_b" false

/-- The scan of one parseable directory next to one broken one: parsing
`alpha` yields a record, parsing anything else raises. -/
def c5Parse : String → Option (String × Mod) :=
  fun d => if d = "alpha" then some ("alpha", mkMod "Alpha" [] true) else none

/-- A registry with one enabled and one disabled mod. -/
def c6Reg : Registry :=
  [("mod_a", mkMod "A" [] true), ("mod_b", mkMod "B" [] false)]

/-- Every copy succeeds. -/
def allCopiesOk : String → Bool :=
  fun _ => true

/-- Three enabled mods. -/
def c7Reg : Registry :=
  [("mod_a", mkMod "A" [] true), ("mod_b", mkMod "B" [] true),
   ("mod_c", mkMod "C" [] true)]

/-- Copying mod_b fails, every other copy succeeds. -/
def c7CopyOk : String → Bool :=
  fun n => !(n == "mod_b")

/-- A one-mod registry for the unknown-folder toggle. -/
def c8Reg : Registry :=
  [("mod_a", mkMod "A" [] true)]

/-- A profile store already holding a profile named p that disables mod_a. -/
def c9Store : ProfileStore :=
  [("p", [("mod_a", false)])]

/-- The registry at load time: mod_a present and enabled. -/
def c9Reg : Registry :=
  [("mod_a", mkMod "A" [] true)]

/-- The trivial iteration-order oracle for registries whose mods affect no
files. -/
def emptyOrd : String → String → List String :=
  fun _ _ => []

/-! Dictionary lemmas. -/

theorem getAssoc_setAssoc_self {α : Type} (d : List (String × α)) (k : String)
    (v : α) : getAssoc (setAssoc d k v) k = some v := by
  induction d with
  | nil => simp [setAssoc, getAssoc]
  | cons p rest ih =>
    by_cases h : p.1 = k
    · simp [setAssoc, getAssoc, h]
    · simp [setAssoc, getAssoc, h, ih]

theorem getAssoc_setAssoc_ne {α : Type} (d : List (String × α)) {n k : String}
    (v : α) (h : n ≠ k) : getAssoc (setAssoc d k v) n = getAssoc d n := by
  induction d with
  | nil => simp [setAssoc, getAssoc, Ne.symm h]
  | cons p rest ih =>
    by_cases hp : p.1 = k
    · simp [setAssoc, getAssoc, hp, Ne.symm h]
    · simp only [setAssoc, if_neg hp, getAssoc]
      by_cases hn : p.1 = n
      · simp [hn]
      · simp [hn, ih]

theorem isSome_getAssoc_setAssoc {α : Type} (d : List (String × α))
    (n k : String) (v : α) :
    (getAssoc (setAssoc d k v) n).isSome = true ↔
      (n = k ∨ (getAssoc d n).isSome = true) := by
  by_cases h : n = k
  · subst h
    simp [getAssoc_setAssoc_self]
  · rw [getAssoc_setAssoc_ne d v h]
    simp [h]

theorem getAssoc_eq_some_mem {α : Type} {l : List (String × α)} {n : String}
    {v : α} (h : getAssoc l n = some v) : (n, v) ∈ l := by
  induction l with
  | nil => simp [getAssoc] at h
  | cons p rest ih =>
    by_cases hp : p.1 = n
    · simp only [getAssoc, if_pos hp, Option.some.injEq] at h
      have hpv : p = (n, v) := by
        cases p
        simp_all
      rw [← hpv]
      exact List.mem_cons_self p rest
    · simp only [getAssoc, if_neg hp] at h
      exact List.mem_cons_of_mem p (ih h)

theorem getAssoc_of_mem_nodup {α : Type} {l : List (String × α)}
    (hnd : (l.map (fun p => p.1)).Nodup) {p : String × α} (hp : p ∈ l) :
    getAssoc l p.1 = some p.2 := by
  induction l with
  | nil => simp at hp
  | cons q rest ih =>
    rcases List.mem_cons.mp hp with h | h
    · subst h
      simp [getAssoc]
    · have hq : q.1 ≠ p.1 := by
        intro he
        have : p.1 ∈ rest.map (fun r => r.1) :=
          List.mem_map.mpr ⟨p, h, rfl⟩
        rw [← he] at this
        exact (List.nodup_cons.mp hnd).1 this
      simp only [getAssoc, if_neg hq]
      exact ih (List.nodup_cons.mp hnd).2 h

theorem getAssoc_map_keyed {α β : Type} (h : String → α → β)
    (l : List (String × α)) (a : String) :
    getAssoc (l.map (fun p => (p.1, h p.1 p.2))) a =
      (getAssoc l a).map (h a) := by
  induction l with
  | nil => simp [getAssoc]
  | cons p rest ih =>
    by_cases hp : p.1 = a
    · simp [getAssoc, hp]
    · simp [getAssoc, hp, ih]

/-! Conflict-engine lemmas. -/

theorem isSome_getAssoc_fold_files (key : String) (files : List String)
    (d : ConflictMap) (k : String) :
    (getAssoc (files.foldl (fun d2 f => setAssoc d2 key f) d) k).isSome = true
      ↔ ((getAssoc d k).isSome = true ∨ (k = key ∧ files ≠ [])) := by
  induction files generalizing d with
  | nil => simp
  | cons f fs ih =>
    rw [List.foldl_cons, ih]
    rw [isSome_getAssoc_setAssoc]
    by_cases h : k = key
    · simp [h]
    · simp [h]

theorem isSome_getAssoc_foldl_conflictStep
    (ord : String → String → List String) (name : String) (others : Registry)
    (d : ConflictMap) (k : String) :
    (getAssoc (others.foldl (conflictStep ord name) d) k).isSome = true ↔
      ((getAssoc d k).isSome = true ∨
        ∃ p ∈ others, p.1 ≠ name ∧ p.2.display_name = k ∧ ord name p.1 ≠ []) := by
  induction others generalizing d with
  | nil => simp
  | cons q qs ih =>
    rw [List.foldl_cons, ih]
    unfold conflictStep
    by_cases hq : q.1 ≠ name
    · rw [if_pos hq, isSome_getAssoc_fold_files]
      simp only [List.mem_cons]
      constructor
      · rintro (⟨hd | ⟨hk, hne⟩⟩ | ⟨p, hp, hcond⟩)
        · exact Or.inl hd
        · exact Or.inr ⟨q, Or.inl rfl, hq, hk.symm, hne⟩
        · exact Or.inr ⟨p, Or.inr hp, hcond⟩
      · rintro (hd | ⟨p, hp | hp, hcond⟩)
        · exact Or.inl (Or.inl hd)
        · subst hp
          exact Or.inl (Or.inr ⟨hcond.2.1.symm, hcond.2.2⟩)
        · exact Or.inr ⟨p, hp, hcond⟩
    · rw [if_neg hq]
      push_neg at hq
      simp only [List.mem_cons]
      constructor
      · rintro (hd | ⟨p, hp, hcond⟩)
        · exact Or.inl hd
        · exact Or.inr ⟨p, Or.inr hp, hcond⟩
      · rintro (hd | ⟨p, hp | hp, hcond⟩)
        · exact Or.inl hd
        · subst hp
          exact absurd hq hcond.1
        · exact Or.inr ⟨p, hp, hcond⟩

theorem hasKey_modConflicts (ord : String → String → List String)
    (name : String) (others : Registry) (k : String) :
    hasKey (modConflicts ord name others) k = true ↔
      ∃ p ∈ others, p.1 ≠ name ∧ p.2.display_name = k ∧ ord name p.1 ≠ [] := by
  unfold hasKey modConflicts
  rw [isSome_getAssoc_foldl_conflictStep]
  simp [getAssoc]

theorem getAssoc_updateConflicts (ord : String → String → List String)
    (reg : Registry) (a : String) :
    getAssoc (updateConflicts ord reg) a =
      (getAssoc reg a).map (recomputeEntry ord reg a) :=
  getAssoc_map_keyed (recomputeEntry ord reg) reg a

theorem foldl_conflictStep_self (ord : String → String → List String)
    (name : String) :
    ∀ (others : Registry), (∀ p ∈ others, p.1 = name) →
      ∀ (d : ConflictMap), others.foldl (conflictStep ord name) d = d := by
  intro others
  induction others with
  | nil => intro _ d; rfl
  | cons q qs ih =>
    intro h d
    rw [List.foldl_cons]
    have hq : q.1 = name := h q (List.mem_cons_self q qs)
    rw [conflictStep, if_neg (fun hc => hc hq)]
    exact ih (fun p hp => h p (List.mem_cons_of_mem q hp)) d

/-- A mod that shares its folder name with every enabled mod (that is, the
only enabled mod is itself) rebuilds an empty conflicts dict: the inner loop
skips the mod itself. -/
theorem modConflicts_self (ord : String → String → List String)
    (name : String) (others : Registry) (h : ∀ p ∈ others, p.1 = name) :
    modConflicts ord name others = [] :=
  foldl_conflictStep_self ord name others h []

theorem conflictsOf_empty_of_disabled (ord : String → String → List String)
    (reg : Registry) (n : String) (m : Mod)
    (hget : getAssoc reg n = some m) (he : m.enabled = false) :
    conflictsOf (updateConflicts ord reg) n = [] := by
  rw [conflictsOf, getAssoc_updateConflicts, hget]
  simp [recomputeEntry, he]

theorem conflictsOf_empty_of_only_self (ord : String → String → List String)
    (reg : Registry) (n : String) (m : Mod)
    (hget : getAssoc reg n = some m)
    (hen : ∀ p ∈ enabledOf reg, p.1 = n) :
    conflictsOf (updateConflicts ord reg) n = [] := by
  rw [conflictsOf, getAssoc_updateConflicts, hget]
  by_cases he : m.enabled = true
  · simp [recomputeEntry, he, modConflicts_self ord n (enabledOf reg) hen]
  · simp only [Bool.not_eq_true] at he
    simp [recomputeEntry, he]

theorem validOrd_canonical (reg : Registry) :
    validOrd (canonicalOrd reg) reg := by
  intro a b ma mb ha hb
  constructor
  · simp [canonicalOrd, ha, hb, List.nodup_dedup]
  · intro f
    simp [canonicalOrd, ha, hb, List.mem_dedup, List.mem_filter]

theorem distinctDisplays_inj {l : Registry}
    (h : distinctDisplays l = true) :
    ∀ p q, p ∈ l → q ∈ l → p.2.display_name = q.2.display_name → p = q := by
  induction l with
  | nil => intro p q hp; simp at hp
  | cons x rest ih =>
    rw [distinctDisplays, Bool.and_eq_true, List.all_eq_true] at h
    intro p q hp hq hpq
    rcases List.mem_cons.mp hp with hp1 | hp1 <;>
      rcases List.mem_cons.mp hq with hq1 | hq1
    · rw [hp1, hq1]
    · subst hp1
      exact absurd hpq (by simpa using h.1 q hq1)
    · subst hq1
      exact absurd hpq.symm (by simpa using h.1 p hp1)
    · exact ih h.2 p q hp1 hq1 hpq

/-! Claim theorems. -/

/-- Claim C1, amended: after `_update_conflicts`, for every pair of distinct
enabled mods a and b, their affected-file sets intersect if and only if each
mod's conflicts dict carries an entry keyed by the other's display name —
provided the display names of the enabled mods are pairwise distinct (the
conflicts dict is keyed by display name, so duplicated display names can
alias entries of unrelated mods). -/
theorem claim_C1 (ord : String → String → List String) (reg : Registry)
    (a b : String) (ma mb : Mod)
    (hord : validOrd ord reg)
    (hdisp : distinctDisplays (enabledOf reg) = true)
    (hab : a ≠ b) (ha : getAssoc reg a = some ma)
    (hb : getAssoc reg b = some mb)
    (hea : ma.enabled = true) (heb : mb.enabled = true) :
    (∃ f, f ∈ ma.affected_files ∧ f ∈ mb.affected_files) ↔
      (hasKey (conflictsOf (updateConflicts ord reg) a) mb.display_name = true ∧
        hasKey (conflictsOf (updateConflicts ord reg) b) ma.display_name = true) := by
  have hca : conflictsOf (updateConflicts ord reg) a =
      modConflicts ord a (enabledOf reg) := by
    simp [conflictsOf, getAssoc_updateConflicts, ha, recomputeEntry, hea]
  have hcb : conflictsOf (updateConflicts ord reg) b =
      modConflicts ord b (enabledOf reg) := by
    simp [conflictsOf, getAssoc_updateConflicts, hb, recomputeEntry, heb]
  have hma : (a, ma) ∈ enabledOf reg :=
    List.mem_filter.mpr ⟨getAssoc_eq_some_mem ha, hea⟩
  have hmb : (b, mb) ∈ enabledOf reg :=
    List.mem_filter.mpr ⟨getAssoc_eq_some_mem hb, heb⟩
  rw [hca, hcb, hasKey_modConflicts, hasKey_modConflicts]
  constructor
  · rintro ⟨f, hfa, hfb⟩
    constructor
    · refine ⟨(b, mb), hmb, Ne.symm hab, rfl, ?_⟩
      exact List.ne_nil_of_mem (((hord a b ma mb ha hb).2 f).mpr ⟨hfa, hfb⟩)
    · refine ⟨(a, ma), hma, hab, rfl, ?_⟩
      exact List.ne_nil_of_mem (((hord b a mb ma hb ha).2 f).mpr ⟨hfb, hfa⟩)
  · rintro ⟨⟨p, hp, hpa, hpd, hpord⟩, _⟩
    have hpb : p = (b, mb) := distinctDisplays_inj hdisp p (b, mb) hp hmb hpd
    subst hpb
    obtain ⟨f, hf⟩ := List.exists_mem_of_ne_nil _ hpord
    exact ⟨f, ((hord a b ma mb ha hb).2 f).mp hf⟩

/-- Claim C1 counterexample: in `c1CexReg` the enabled mods mod_a and mod_b
are distinct, their affected-file sets are disjoint, yet after the recompute
each carries a conflict entry keyed by the other's display name, because two
other enabled mods reuse those display names.  The biconditional of the claim
as stated is therefore false at this registry. -/
theorem claim_C1_cex :
    validOrd (canonicalOrd c1CexReg) c1CexReg ∧
    getAssoc c1CexReg "mod_a" = some (mkMod "E" ["f"] true) ∧
    getAssoc c1CexReg "mod_b" = some (mkMod "D" ["g"] true) ∧
    ("mod_a" : String) ≠ "mod_b" ∧
    (mkMod "E" ["f"] true).enabled = true ∧
    (mkMod "D" ["g"] true).enabled = true ∧
    hasKey (conflictsOf (updateConflicts (canonicalOrd c1CexReg) c1CexReg)
      "mod_a") (mkMod "D" ["g"] true).display_name = true ∧
    hasKey (conflictsOf (updateConflicts (canonicalOrd c1CexReg) c1CexReg)
      "mod_b") (mkMod "E" ["f"] true).display_name = true ∧
    (∀ f, f ∈ (mkMod "E" ["f"] true).affected_files →
      f ∉ (mkMod "D" ["g"] true).affected_files) := by
  refine ⟨validOrd_canonical c1CexReg, by decide, by decide, by decide,
    by decide, by decide, by decide, by decide, ?_⟩
  intro f hf hg
  simp [mkMod] at hf hg
  rw [hf] at hg
  simp at hg

/-- Claim C1 witness: on a registry with distinct display names, the amended
biconditional holds at mod_a and mod_b sharing shared.xml. -/
theorem claim_C1_witness :
    (∃ f, f ∈ (mkMod "Mod A" ["a.xml", "shared.xml"] true).affected_files ∧
        f ∈ (mkMod "Mod B" ["shared.xml"] true).affected_files) ↔
      (hasKey (conflictsOf (updateConflicts (canonicalOrd c1WReg) c1WReg)
          "mod_a") (mkMod "Mod B" ["shared.xml"] true).display_name = true ∧
        hasKey (conflictsOf (updateConflicts (canonicalOrd c1WReg) c1WReg)
          "mod_b")
          (mkMod "Mod A" ["a.xml", "shared.xml"] true).display_name = true) :=
  claim_C1 (canonicalOrd c1WReg) c1WReg "mod_a" "mod_b"
    (mkMod "Mod A" ["a.xml", "shared.xml"] true)
    (mkMod "Mod B" ["shared.xml"] true)
    (validOrd_canonical c1WReg) (by decide) (by decide) (by decide)
    (by decide) rfl rfl

/-- Claim C3: after every conflict recompute, every disabled mod's conflicts
dict is empty; for every registry holding exactly two mods, disabling either
one of them and recomputing leaves both mods' conflicts dicts empty (for
every iteration-order oracle); and in the spec scenario (mod_a and mod_b
conflict on shared.xml while both are enabled) disabling either mod and
recomputing leaves both conflicts dicts empty. -/
theorem claim_C3 :
    (∀ (ord : String → String → List String) (reg : Registry)
        (p : String × Mod), p ∈ updateConflicts ord reg →
        p.2.enabled = false → p.2.conflicts = []) ∧
      (∀ (ord : String → String → List String) (n1 n2 : String)
          (m1 m2 : Mod), n1 ≠ n2 →
        conflictsOf (updateConflicts ord
          (setEnabledReg [(n1, m1), (n2, m2)] n1 false)) n1 = [] ∧
        conflictsOf (updateConflicts ord
          (setEnabledReg [(n1, m1), (n2, m2)] n1 false)) n2 = [] ∧
        conflictsOf (updateConflicts ord
          (setEnabledReg [(n1, m1), (n2, m2)] n2 false)) n1 = [] ∧
        conflictsOf (updateConflicts ord
          (setEnabledReg [(n1, m1), (n2, m2)] n2 false)) n2 = []) ∧
      (conflictsOf (updateConflicts (canonicalOrd c3Reg) c3Reg) "mod_a" ≠ [] ∧
        conflictsOf (updateConflicts (canonicalOrd c3Reg) c3Reg) "mod_b" ≠ [] ∧
        conflictsOf (updateConflicts (canonicalOrd c3RegDis) c3RegDis)
          "mod_a" = [] ∧
        conflictsOf (updateConflicts (canonicalOrd c3RegDis) c3RegDis)
          "mod_b" = [] ∧
        conflictsOf (updateConflicts (canonicalOrd c3RegDisB) c3RegDisB)
          "mod_a" = [] ∧
        conflictsOf (updateConflicts (canonicalOrd c3RegDisB) c3RegDisB)
          "mod_b" = []) := by
  refine ⟨?_, ?_, ?_⟩
  · intro ord reg p hp hen
    unfold updateConflicts at hp
    obtain ⟨q, hq, rfl⟩ := List.mem_map.mp hp
    simp only [recomputeEntry] at hen ⊢
    simp only [hen, Bool.false_eq_true, if_false]
  · intro ord n1 n2 m1 m2 hne
    have hreg1 : setEnabledReg [(n1, m1), (n2, m2)] n1 false =
        [(n1, { m1 with enabled := false }), (n2, m2)] := by
      simp [setEnabledReg, Ne.symm hne]
    have hreg2 : setEnabledReg [(n1, m1), (n2, m2)] n2 false =
        [(n1, m1), (n2, { m2 with enabled := false })] := by
      simp [setEnabledReg, hne]
    refine ⟨?_, ?_, ?_, ?_⟩
    · rw [hreg1]
      exact conflictsOf_empty_of_disabled ord _ n1 { m1 with enabled := false }
        (by simp [getAssoc]) rfl
    · rw [hreg1]
      refine conflictsOf_empty_of_only_self ord _ n2 m2
        (by simp [getAssoc, hne]) ?_
      intro p hp
      have h2 := List.mem_filter.mp hp
      rcases List.mem_cons.mp h2.1 with h3 | h3
      · exfalso
        have h4 := h2.2
        rw [h3] at h4
        simp at h4
      · rcases List.mem_cons.mp h3 with h4 | h4
        · rw [h4]
        · simp at h4
    · rw [hreg2]
      refine conflictsOf_empty_of_only_self ord _ n1 m1
        (by simp [getAssoc]) ?_
      intro p hp
      have h2 := List.mem_filter.mp hp
      rcases List.mem_cons.mp h2.1 with h3 | h3
      · rw [h3]
      · rcases List.mem_cons.mp h3 with h4 | h4
        · exfalso
          have h5 := h2.2
          rw [h4] at h5
          simp at h5
        · simp at h4
    · rw [hreg2]
      exact conflictsOf_empty_of_disabled ord _ n2 { m2 with enabled := false }
        (by simp [getAssoc, hne]) rfl
  · exact ⟨by decide, by decide, by decide, by decide, by decide, by decide⟩

/-- Claim C3 witness: the general disabled-mods-have-empty-conflicts part of
C3 applied to the concrete disabled mod_a of the scenario registry. -/
theorem claim_C3_witness :
    (("mod_a", mkMod "Mod A" ["a.xml", "shared.xml"] false)).2.conflicts = [] :=
  claim_C3.1 (canonicalOrd c3RegDis) c3RegDis
    ("mod_a", mkMod "Mod A" ["a.xml", "shared.xml"] false)
    (by decide) (by decide)

/-- Claim C2: the code does not record the lexicographically smallest common
path.  `c2Ord` is a possible iteration order of the two-element intersection
of `c2Reg`'s mods (first conjunct), mod_a's recorded representative for
Mod B under that order is b.xml (second conjunct), which differs from the
lexicographically smallest element a.xml of the intersection (remaining
conjuncts): the dict assignment loop keeps the last iterated file, so the
representative depends on the unspecified set-iteration order. -/
theorem claim_C2 :
    validOrd c2Ord c2Reg ∧
    getAssoc (conflictsOf (updateConflicts c2Ord c2Reg) "mod_a")
      (mkMod "Mod B" ["a.xml", "b.xml"] true).display_name = some "b.xml" ∧
    ("b.xml" : String) ≠ "a.xml" ∧
    ("a.xml" : String) ∈ c2Ord "mod_a" "mod_b" ∧
    (∀ f, f ∈ c2Ord "mod_a" "mod_b" → ("a.xml" : String) ≤ f) := by
  have key : ∀ x mx, getAssoc c2Reg x = some mx →
      mx.affected_files = ["a.xml", "b.xml"] := by
    intro x mx hx
    simp only [c2Reg, getAssoc] at hx
    split at hx
    · rw [← Option.some.inj hx]
      rfl
    · split at hx
      · rw [← Option.some.inj hx]
        rfl
      · exact Option.noConfusion hx
  refine ⟨?_, by decide, by decide, by decide, ?_⟩
  · intro a b ma mb ha hb
    refine ⟨?_, ?_⟩
    · show List.Nodup ["a.xml", "b.xml"]
      decide
    · intro f
      rw [key a ma ha, key b mb hb]
      simp only [c2Ord, List.mem_cons, List.not_mem_nil, or_false]
      tauto
  · intro f hf
    simp only [c2Ord, List.mem_cons, List.not_mem_nil, or_false] at hf
    rcases hf with rfl | rfl
    · exact le_refl _
    · rw [String.le_iff_toList_le]
      decide

/-- Claim C4: rescanning twice over unchanged storage contents yields the
same folder-name keys and the same record for each key as rescanning once,
because `refresh_mod_list` clears the registry and rebuilds it purely from
the storage directory. -/
theorem claim_C4 (parse : String → Option (String × Mod))
    (dirs : List String) (oldReg : Registry) :
    regKeys (refreshModList parse dirs (refreshModList parse dirs oldReg)) =
        regKeys (refreshModList parse dirs oldReg) ∧
      ∀ n, getAssoc (refreshModList parse dirs
          (refreshModList parse dirs oldReg)) n =
        getAssoc (refreshModList parse dirs oldReg) n :=
  ⟨rfl, fun _ => rfl⟩

theorem scanLoop_filter (parse : String → Option (String × Mod)) :
    ∀ (ds : List String) (acc : Registry),
      scanLoop parse acc ds =
        scanLoop parse acc (ds.filter (fun d => (parse d).isSome)) := by
  intro ds
  induction ds with
  | nil => intro acc; rfl
  | cons d rest ih =>
    intro acc
    cases h : parse d with
    | none => simp [scanLoop, h, List.filter_cons, ih]
    | some nm => simp [scanLoop, h, List.filter_cons, ih]

theorem isSome_getAssoc_scanLoop (parse : String → Option (String × Mod)) :
    ∀ (ds : List String) (acc : Registry) (n : String),
      (getAssoc (scanLoop parse acc ds) n).isSome = true ↔
        ((getAssoc acc n).isSome = true ∨
          ∃ d ∈ ds, ∃ m, parse d = some (n, m)) := by
  intro ds
  induction ds with
  | nil => simp [scanLoop]
  | cons d rest ih =>
    intro acc n
    cases h : parse d with
    | none =>
      rw [scanLoop]
      simp only [h]
      rw [ih]
      simp only [List.mem_cons]
      constructor
      · rintro (ha | ⟨d2, hd2, m, hm⟩)
        · exact Or.inl ha
        · exact Or.inr ⟨d2, Or.inr hd2, m, hm⟩
      · rintro (ha | ⟨d2, hd2 | hd2, m, hm⟩)
        · exact Or.inl ha
        · subst hd2
          rw [h] at hm
          exact Option.noConfusion hm
        · exact Or.inr ⟨d2, hd2, m, hm⟩
    | some nm =>
      rw [scanLoop]
      simp only [h]
      rw [ih, isSome_getAssoc_setAssoc]
      simp only [List.mem_cons]
      constructor
      · rintro ((hn | ha) | ⟨d2, hd2, m, hm⟩)
        · exact Or.inr ⟨d, Or.inl rfl, nm.2, by simp [h, hn]⟩
        · exact Or.inl ha
        · exact Or.inr ⟨d2, Or.inr hd2, m, hm⟩
      · rintro (ha | ⟨d2, hd2 | hd2, m, hm⟩)
        · exact Or.inl (Or.inr ha)
        · subst hd2
          rw [h] at hm
          have hnm : nm = (n, m) := Option.some.inj hm
          exact Or.inl (Or.inl (by rw [hnm]))
        · exact Or.inr ⟨d2, hd2, m, hm⟩

theorem getAssoc_scanLoop_some (parse : String → Option (String × Mod)) :
    ∀ (ds : List String) (acc : Registry) (n : String) (m : Mod),
      getAssoc (scanLoop parse acc ds) n = some m →
        (getAssoc acc n = some m ∨ ∃ d ∈ ds, parse d = some (n, m)) := by
  intro ds
  induction ds with
  | nil => intro acc n m h; exact Or.inl h
  | cons d rest ih =>
    intro acc n m h
    cases hp : parse d with
    | none =>
      rw [scanLoop] at h
      simp only [hp] at h
      rcases ih _ _ _ h with ha | ⟨d2, hd2, hm⟩
      · exact Or.inl ha
      · exact Or.inr ⟨d2, List.mem_cons_of_mem d hd2, hm⟩
    | some nm =>
      rw [scanLoop] at h
      simp only [hp] at h
      rcases ih _ _ _ h with ha | ⟨d2, hd2, hm⟩
      · by_cases hn : n = nm.1
        · rw [hn, getAssoc_setAssoc_self] at ha
          have hm2 : nm.2 = m := Option.some.inj ha
          refine Or.inr ⟨d, List.mem_cons_self d rest, ?_⟩
          rw [hp, hn, ← hm2]
        · rw [getAssoc_setAssoc_ne acc nm.2 hn] at ha
          exact Or.inl ha
      · exact Or.inr ⟨d2, List.mem_cons_of_mem d hd2, hm⟩

theorem mem_insertSorted (x y : String) :
    ∀ (l : List String), y ∈ insertSorted x l ↔ y = x ∨ y ∈ l := by
  intro l
  induction l with
  | nil => simp [insertSorted]
  | cons z zs ih =>
    unfold insertSorted
    by_cases h : x.toLower ≤ z.toLower
    · simp [h]
    · simp only [h, if_false, List.mem_cons, ih]
      tauto

theorem mem_sortDirs (y : String) :
    ∀ (dirs : List String), y ∈ sortDirs dirs ↔ y ∈ dirs := by
  intro dirs
  induction dirs with
  | nil => simp [sortDirs]
  | cons d rest ih =>
    unfold sortDirs at ih ⊢
    rw [List.foldr_cons, mem_insertSorted, ih]
    simp

/-- Claim C5: a storage directory whose parse raises contributes nothing at
all to the rescanned registry (first conjunct: directories with failed parses
can be dropped from the scan without changing the result), a folder name is
registered exactly when some directory parses to it (second conjunct), and
every registered record is exactly the complete output of a successful parse,
never partially populated (third conjunct). -/
theorem claim_C5 (parse : String → Option (String × Mod))
    (dirs : List String) (oldReg : Registry) :
    refreshModList parse dirs oldReg =
        scanLoop parse []
          ((sortDirs dirs).filter (fun d => (parse d).isSome)) ∧
      (∀ n, (getAssoc (refreshModList parse dirs oldReg) n).isSome = true ↔
        ∃ d ∈ dirs, ∃ m, parse d = some (n, m)) ∧
      (∀ n m, getAssoc (refreshModList parse dirs oldReg) n = some m →
        ∃ d ∈ dirs, parse d = some (n, m)) := by
  refine ⟨scanLoop_filter parse (sortDirs dirs) [], ?_, ?_⟩
  · intro n
    unfold refreshModList
    rw [isSome_getAssoc_scanLoop]
    constructor
    · rintro (ha | ⟨d, hd, m, hm⟩)
      · simp [getAssoc] at ha
      · exact ⟨d, (mem_sortDirs d dirs).mp hd, m, hm⟩
    · rintro ⟨d, hd, m, hm⟩
      exact Or.inr ⟨d, (mem_sortDirs d dirs).mpr hd, m, hm⟩
  · intro n m h
    unfold refreshModList at h
    rcases getAssoc_scanLoop_some parse _ _ _ _ h with ha | ⟨d, hd, hm⟩
    · simp [getAssoc] at ha
    · exact ⟨d, (mem_sortDirs d dirs).mp hd, hm⟩

/-- Claim C5 witness: scanning one parseable directory next to one whose
parse raises registers the parseable one. -/
theorem claim_C5_witness :
    (getAssoc (refreshModList c5Parse ["broken", "alpha"] []) "alpha").isSome
      = true :=
  ((claim_C5 c5Parse ["broken", "alpha"] []).2.1 "alpha").mpr
    ⟨"alpha", by decide, mkMod "Alpha" [] true, by decide⟩

theorem copyLoop_success (copyOk : String → Bool) :
    ∀ (l : Registry) (acc t : List String),
      copyLoop copyOk l acc = DeployResult.success t →
      t = acc ++ l.map (fun p => p.1) ∧ ∀ p ∈ l, copyOk p.1 = true := by
  intro l
  induction l with
  | nil =>
    intro acc t h
    simp only [copyLoop, DeployResult.success.injEq] at h
    refine ⟨by simp [← h], by simp⟩
  | cons p rest ih =>
    intro acc t h
    simp only [copyLoop] at h
    by_cases hc : copyOk p.1 = true
    · rw [if_pos hc] at h
      obtain ⟨ht, hall⟩ := ih (acc ++ [p.1]) t h
      constructor
      · rw [ht]
        simp
      · intro q hq
        rcases List.mem_cons.mp hq with hq | hq
        · rw [hq]
          exact hc
        · exact hall q hq
    · rw [if_neg hc] at h
      exact DeployResult.noConfusion h

theorem copyLoop_failure (copyOk : String → Bool) :
    ∀ (l : Registry) (acc t : List String) (f : String),
      copyLoop copyOk l acc = DeployResult.failure t f →
      ∃ mf pre post, l = pre ++ (f, mf) :: post ∧
        t = acc ++ pre.map (fun p => p.1) ∧
        (∀ p ∈ pre, copyOk p.1 = true) ∧ copyOk f = false := by
  intro l
  induction l with
  | nil =>
    intro acc t f h
    simp only [copyLoop] at h
    exact DeployResult.noConfusion h
  | cons p rest ih =>
    intro acc t f h
    simp only [copyLoop] at h
    by_cases hc : copyOk p.1 = true
    · rw [if_pos hc] at h
      obtain ⟨mf, pre, post, hl, ht, hall, hf⟩ := ih (acc ++ [p.1]) t f h
      refine ⟨mf, p :: pre, post, ?_, ?_, ?_, hf⟩
      · rw [List.cons_append, ← hl]
      · rw [ht]
        simp
      · intro q hq
        rcases List.mem_cons.mp hq with hq | hq
        · rw [hq]
          exact hc
        · exact hall q hq
    · rw [if_neg hc] at h
      simp only [DeployResult.failure.injEq] at h
      obtain ⟨h1, h2⟩ := h
      simp only [Bool.not_eq_true] at hc
      refine ⟨p.2, [], rest, ?_, ?_, ?_, ?_⟩
      · rw [List.nil_append, ← h2]
      · rw [← h1]
        simp
      · intro q hq
        simp at hq
      · rw [← h2]
        exact hc

/-- Claim C6: when a deploy completes without error, the game mods directory
contains exactly one entry per mod that was enabled at call time, named by
its folder name, and nothing else — the clear phase removed every pre-deploy
entry. -/
theorem claim_C6 (copyOk : String → Bool) (reg : Registry)
    (target t : List String) (hnd : (regKeys reg).Nodup)
    (h : deployMods copyOk reg target = DeployResult.success t) :
    (∀ n, n ∈ t ↔ ∃ m, getAssoc reg n = some m ∧ m.enabled = true) ∧
      t.Nodup := by
  obtain ⟨ht, _⟩ := copyLoop_success copyOk (enabledOf reg) [] t h
  rw [List.nil_append] at ht
  subst ht
  constructor
  · intro n
    constructor
    · intro hn
      obtain ⟨p, hp, rfl⟩ := List.mem_map.mp hn
      have hpr := List.mem_filter.mp hp
      exact ⟨p.2, getAssoc_of_mem_nodup hnd hpr.1, hpr.2⟩
    · rintro ⟨m, hm, he⟩
      exact List.mem_map.mpr
        ⟨(n, m), List.mem_filter.mpr ⟨getAssoc_eq_some_mem hm, he⟩, rfl⟩
  · have hnd2 : (reg.map (fun p => p.1)).Nodup := hnd
    exact List.Sublist.nodup
      (List.Sublist.map (fun p => p.1) (List.filter_sublist reg)) hnd2

/-- Claim C6 witness: deploying a registry with one enabled and one disabled
mod yields exactly the enabled one. -/
theorem claim_C6_witness :
    ("mod_a" ∈ (["mod_a"] : List String) ↔
      ∃ m, getAssoc c6Reg "mod_a" = some m ∧ m.enabled = true) :=
  (claim_C6 allCopiesOk c6Reg [] ["mod_a"] (by decide) (by decide)).1 "mod_a"

/-- Claim C7: when the copy of some enabled mod fails, the failing mod splits
the enabled list; the target directory holds exactly the folder names of the
mods copied before the failure (a prefix of the enabled list, hence a subset
of the enabled set, with every pre-deploy entry removed), nothing after the
failing mod was copied, and the run ends in the failure result with no
rollback. -/
theorem claim_C7 (copyOk : String → Bool) (reg : Registry)
    (target t : List String) (f : String)
    (h : deployMods copyOk reg target = DeployResult.failure t f) :
    ∃ mf pre post, enabledOf reg = pre ++ (f, mf) :: post ∧
      t = pre.map (fun p => p.1) ∧
      (∀ p ∈ pre, copyOk p.1 = true) ∧ copyOk f = false := by
  obtain ⟨mf, pre, post, hl, ht, hall, hf⟩ :=
    copyLoop_failure copyOk (enabledOf reg) [] t f h
  rw [List.nil_append] at ht
  exact ⟨mf, pre, post, hl, ht, hall, hf⟩

/-- Claim C7 witness: with three enabled mods and the second copy failing,
the target holds exactly the first mod. -/
theorem claim_C7_witness :
    ∃ mf pre post, enabledOf c7Reg = pre ++ ("mod_b", mf) :: post ∧
      (["mod_a"] : List String) = pre.map (fun p => p.1) ∧
      (∀ p ∈ pre, c7CopyOk p.1 = true) ∧ c7CopyOk "mod_b" = false :=
  claim_C7 c7CopyOk c7Reg [] ["mod_a"] "mod_b" (by decide)

/-- Claim C8, amended: toggling a folder name that is not a registry key is a
silent no-op — the handler returns early without raising any error and leaves
every mod's enabled flag and conflicts dict unchanged (the source has no
NotFoundError on this path). -/
theorem claim_C8 (ord : String → String → List String) (reg : Registry)
    (folder : String) (b : Bool) (h : getAssoc reg folder = none) :
    onModToggle ord reg folder b = (reg, ToggleOutcome.ignored) := by
  unfold onModToggle
  rw [h]

/-- Claim C8 counterexample: toggling the absent folder name does not fail —
the run completes with the non-error outcome `ignored` (the handler's outcome
type has no error alternative because `_on_mod_toggle` raises nothing) and
the registry, including every enabled flag and conflicts dict, is returned
unchanged; the claimed NotFoundError never occurs. -/
theorem claim_C8_cex :
    getAssoc c8Reg "missing" = none ∧
      onModToggle emptyOrd c8Reg "missing" true =
        (c8Reg, ToggleOutcome.ignored) :=
  ⟨by decide, by decide⟩

/-- Claim C8 witness: the amended no-op behaviour at a concrete registry and
absent key. -/
theorem claim_C8_witness :
    onModToggle emptyOrd c8Reg "other" false = (c8Reg, ToggleOutcome.ignored) :=
  claim_C8 emptyOrd c8Reg "other" false (by decide)

/-- Claim C9, amended: for every enabled map captured from a non-empty
registry, saving it and loading it back returns exactly that map, and
applying the load onto the (possibly changed) registry gives every present
folder name the profile's value where the profile has one and keeps the
current flag otherwise, while profile keys absent from the registry are
silently ignored (the apply never fails and registers nothing new).  The
non-emptiness hypothesis is forced: an empty registry skips the save. -/
theorem claim_C9 (store : ProfileStore) (name : String)
    (ord : String → String → List String) (reg0 reg1 : Registry)
    (h0 : reg0 ≠ []) :
    loadProfileData (saveProfile store name reg0).1 name =
        some (profileOf reg0) ∧
      (∀ n m, getAssoc reg1 n = some m →
        ∃ m2, getAssoc (applyProfile ord reg1 (profileOf reg0)) n = some m2 ∧
          m2.enabled = (getAssoc (profileOf reg0) n).getD m.enabled ∧
          m2.affected_files = m.affected_files ∧
          m2.display_name = m.display_name) ∧
      (∀ n, getAssoc reg1 n = none →
        getAssoc (applyProfile ord reg1 (profileOf reg0)) n = none) := by
  have he : reg0.isEmpty = false := by
    cases reg0 with
    | nil => exact absurd rfl h0
    | cons p l => rfl
  refine ⟨?_, ?_, ?_⟩
  · unfold saveProfile loadProfileData
    rw [if_neg (by simp [he])]
    exact getAssoc_setAssoc_self store name (profileOf reg0)
  · intro n m hm
    refine ⟨recomputeEntry ord
      (reg1.map (fun p => (p.1, applyFlag (profileOf reg0) p.1 p.2))) n
      (applyFlag (profileOf reg0) n m), ?_, ?_, ?_, ?_⟩
    · unfold applyProfile
      rw [getAssoc_updateConflicts,
        getAssoc_map_keyed (applyFlag (profileOf reg0)) reg1 n, hm]
      rfl
    · cases hd : getAssoc (profileOf reg0) n <;>
        simp [recomputeEntry, applyFlag, hd]
    · cases hd : getAssoc (profileOf reg0) n <;>
        simp [recomputeEntry, applyFlag, hd]
    · cases hd : getAssoc (profileOf reg0) n <;>
        simp [recomputeEntry, applyFlag, hd]
  · intro n hm
    unfold applyProfile
    rw [getAssoc_updateConflicts,
      getAssoc_map_keyed (applyFlag (profileOf reg0)) reg1 n, hm]
    rfl

/-- Claim C9 counterexample: with an empty registry at save time the captured
map is empty and the save is skipped with a warning, so a stale profile of
the same name survives; loading it back yields the stale map, and applying
it flips mod_a's enabled flag from true to false even though the captured
map has no key mod_a — the claim as stated (mods absent from the captured
map keep their flag) fails. -/
theorem claim_C9_cex :
    profileOf ([] : Registry) = [] ∧
      getAssoc (profileOf ([] : Registry)) "mod_a" = none ∧
      saveProfile c9Store "p" [] = (c9Store, SaveOutcome.emptyWarning) ∧
      loadProfileData c9Store "p" = some [("mod_a", false)] ∧
      (getAssoc c9Reg "mod_a").map Mod.enabled = some true ∧
      (getAssoc (applyProfile emptyOrd c9Reg [("mod_a", false)]) "mod_a").map
        Mod.enabled = some false :=
  ⟨rfl, rfl, by decide, by decide, by decide, by decide⟩

/-- Claim C9 witness: the saved map of a non-empty registry loads back
exactly. -/
theorem claim_C9_witness :
    loadProfileData (saveProfile [] "p" c9Reg).1 "p" = some (profileOf c9Reg) :=
  (claim_C9 [] "p" emptyOrd c9Reg c9Reg (by decide)).1

/-- Claim C10: saving a profile while the registry is empty writes nothing,
leaves the profile store unchanged under every name, and reports the
no-mods warning instead of creating an empty profile. -/
theorem claim_C10 (store : ProfileStore) (name : String) (reg : Registry)
    (h : reg = []) :
    saveProfile store name reg = (store, SaveOutcome.emptyWarning) := by
  rw [h]
  rfl

/-- Claim C10 witness: the empty-registry save at a concrete store. -/
theorem claim_C10_witness :
    saveProfile c9Store "anything" [] = (c9Store, SaveOutcome.emptyWarning) :=
  claim_C10 c9Store "anything" [] rfl

end Civ7ModManager
